import Mathlib

/-!
# Verification of the incremental kline store and signal detectors

Shallow embedding of the core logic of `kcb_daily.py` (incremental CSV
merge engine), `kcb_signal_ma120.py` (moving average + crossover
detector), `kcb_signal_ma20_ma30.py` (band-trend detector) and
`kcb_signal_new_high_20d.py` (rolling new-high detector).

CSV files are modelled as a header (list of field names) together with a
list of records (each a list of cell strings); a `Row`, as produced by
`csv.DictReader` or by `build_rows`, is an association list from field
name to string value.  Prices are modelled as rationals (exact
arithmetic).  Dates follow Python's `datetime.date` proleptic Gregorian
calendar, with `date.today()` abstracted as an ordinal-day input.
-/

namespace Kcb

/-- A persisted CSV file: the header line and the data records
(each record is the list of cell strings of one line). -/
structure CsvFile where
  header : List String
  records : List (List String)
deriving DecidableEq, Repr

/-- A row as handled by the Python code: a field-name-keyed mapping
(association list), as produced by `csv.DictReader` or `build_rows`. -/
def Row : Type := List (String × String)

instance : DecidableEq Row := by unfold Row; infer_instance

/-- Python `row.get(key)`: the value at `key`, or `None` when absent. -/
def rowGet (r : Row) (key : String) : Option String :=
  (r.find? (fun p => p.1 = key)).map (fun p => p.2)

/-- The row `csv.DictReader` yields for one record line under `header`. -/
def recordRow (header : List String) (cells : List String) : Row :=
  header.zip cells

/-- The cell line `csv.DictWriter.writerow` emits for `row` under
`fieldnames = header`: `{key: row.get(key, "") for key in header}`. -/
def projectRow (header : List String) (r : Row) : List String :=
  header.map (fun key => (rowGet r key).getD "")

/-- `read_csv_header` (kcb_daily.py:163-168): the first line of the
file, or `None` when the file does not exist. -/
def read_csv_header (file : Option CsvFile) : Option (List String) :=
  file.map (fun f => f.header)

/-- Python `str.strip()` on a character list: drop leading and
trailing whitespace. -/
def pyStrip (s : List Char) : List Char :=
  ((s.dropWhile Char.isWhitespace).reverse.dropWhile Char.isWhitespace).reverse

/-- Python `str.replace(sep, "")` for a single-character separator:
remove every occurrence. -/
def removeAll (sep : Char) (s : List Char) : List Char :=
  s.filter (fun c => c ≠ sep)

/-- The numeric value of a decimal digit string, Python `int(...)`. -/
def digitsToNat (s : List Char) : Nat :=
  s.foldl (fun n c => n * 10 + (c.toNat - 48)) 0

/-- `parse_date_int` (kcb_daily.py:170-174): strip whitespace and
remove the separators `-` and `/`; accept exactly eight digits, as an
integer.  Strings are handled as their character lists so that the
definition is kernel-computable. -/
def parse_date_int (value : String) : Option Nat :=
  let cleaned := removeAll '/' (removeAll '-' (pyStrip value.data))
  if cleaned.length = 8 ∧ cleaned.all Char.isDigit then
    some (digitsToNat cleaned)
  else
    none

/-- One step of the `read_existing_dates` loop body
(kcb_daily.py:190-198): record a truthy date value in the set and fold
its parsed form into the running latest. -/
def readDatesStep (date_field : String) (header : List String)
    (acc : List String × Option Nat) (cells : List String) :
    List String × Option Nat :=
  match rowGet (recordRow header cells) date_field with
  | none => acc
  | some v =>
    if v = "" then acc
    else
      let dates := v :: acc.1
      match parse_date_int v with
      | none => (dates, acc.2)
      | some p =>
        match acc.2 with
        | none => (dates, some p)
        | some l => (dates, some (if l < p then p else l))

/-- `read_existing_dates` (kcb_daily.py:184-199): the set of raw date
strings present in the file and the largest parsed date. -/
def read_existing_dates (file : Option CsvFile) (date_field : String) :
    List String × Option Nat :=
  match file with
  | none => ([], none)
  | some f => f.records.foldl (readDatesStep date_field f.header) ([], none)

/-- `write_csv_rows` (kcb_daily.py:202-217): no-op on an empty row
list; truncate and write header + rows when overwriting or the file is
absent; otherwise append the rows, projected onto `header`, after the
existing records. -/
def write_csv_rows (file : Option CsvFile) (header : List String)
    (rows : List Row) (overwrite : Bool) : Option CsvFile :=
  if rows.isEmpty then file
  else if overwrite || file.isNone then
    some ⟨header, rows.map (projectRow header)⟩
  else
    match file with
    | some f => some ⟨f.header, f.records ++ rows.map (projectRow header)⟩
    | none => some ⟨header, rows.map (projectRow header)⟩

/-! ## Calendar (Python `datetime.date`, proleptic Gregorian) -/

/-- Leap year test of the proleptic Gregorian calendar. -/
def isLeap (y : Nat) : Bool :=
  y % 4 = 0 && (y % 100 ≠ 0 || y % 400 = 0)

/-- Days in month `m` (1-12) of year `y`. -/
def daysInMonth (y m : Nat) : Nat :=
  if m = 2 then (if isLeap y then 29 else 28)
  else [31, 28, 31, 30, 31, 30, 31, 31, 30, 31, 30, 31].getD (m - 1) 0

/-- Locate the month containing 0-based day-of-year `n`; returns the
month (starting the scan at `m`) and the 1-based day of month. -/
def monthOfDay (y : Nat) (m : Nat) (n : Nat) : Nat × Nat :=
  if m ≥ 12 then (12, n + 1)
  else if n < daysInMonth y m then (m, n + 1)
  else monthOfDay y (m + 1) (n - daysInMonth y m)
termination_by 12 - m

/-- `datetime.date.fromordinal`: year, month, day of the date with the
given proleptic Gregorian ordinal (day 1 = 0001-01-01). -/
def ord2ymd (ordinal : Nat) : Nat × Nat × Nat :=
  let n := ordinal - 1
  let n400 := n / 146097
  let r400 := n % 146097
  let n100 := r400 / 36524
  let r100 := r400 % 36524
  let n4 := r100 / 1461
  let r4 := r100 % 1461
  let n1 := r4 / 365
  let r1 := r4 % 365
  let year := n400 * 400 + n100 * 100 + n4 * 4 + n1 + 1
  if n1 = 4 ∨ n100 = 4 then (year - 1, 12, 31)
  else
    let (m, d) := monthOfDay year 1 r1
    (year, m, d)

/-- `strftime("%Y%m%d")` of a (year, month, day) triple, as an integer. -/
def ymdToInt (ymd : Nat × Nat × Nat) : Nat :=
  ymd.1 * 10000 + ymd.2.1 * 100 + ymd.2.2

/-- `compute_recent_beg` (kcb_daily.py:177-181): `None` when no
positive recent-days count is given, else
`int((today - timedelta(days=recent_days-1)).strftime("%Y%m%d"))`.
`today` is `datetime.date.today()` abstracted as its ordinal. -/
def compute_recent_beg (today : Nat) (recent_days : Option Int) : Option Int :=
  match recent_days with
  | none => none
  | some n =>
    if n ≤ 0 then none
    else some (Int.ofNat (ymdToInt (ord2ymd (today - (n.toNat - 1)))))

/-- The per-instrument fetch-begin computation of `main`
(kcb_daily.py:358-368): start from the requested `beg`; when a date
field is configured and we are not overwriting, raise it to the latest
persisted date; finally raise it to the recency floor when one is
configured. -/
def effectiveBeg (beg : Int) (overwrite : Bool) (dateFieldPresent : Bool)
    (file : Option CsvFile) (date_field : String)
    (recent_beg : Option Int) : Int :=
  let latest : Option Nat :=
    if dateFieldPresent && !overwrite then (read_existing_dates file date_field).2
    else none
  let e1 : Int :=
    match latest with
    | some l => max beg (Int.ofNat l)
    | none => beg
  match recent_beg with
  | some r => max e1 r
  | none => e1

/-! ## The merge step of `main` (kcb_daily.py:398-418) -/

/-- Insert a string into an ascending list (used to model Python's
`sorted`). -/
def insertSorted (x : String) : List String → List String
  | [] => [x]
  | y :: ys => if x ≤ y then x :: y :: ys else y :: insertSorted x ys

/-- `sorted(...)` on a list of strings. -/
def sortStrings (l : List String) : List String :=
  l.foldr insertSorted []

/-- The write header chosen by `main` (kcb_daily.py:406):
`header = existing_header or computed_header` (Python truthiness: an
absent or empty existing header falls back to the computed one). -/
def mergeHeader (file : Option CsvFile) (computed_header : List String) :
    List String :=
  match read_csv_header file with
  | some h => if h.isEmpty then computed_header else h
  | none => computed_header

/-- The warning of `main` (kcb_daily.py:407-413): when a (truthy)
existing header lacks fields of the computed header, the sorted list of
missing fields; otherwise no warning. -/
def mergeWarning (file : Option CsvFile) (computed_header : List String) :
    Option (List String) :=
  match read_csv_header file with
  | some h =>
    if h.isEmpty then none
    else
      let missing := (computed_header.filter (fun k => ¬ k ∈ h)).dedup
      if missing.isEmpty then none else some (sortStrings missing)
  | none => none

/-- The duplicate filter of `main` (kcb_daily.py:415-416): when a date
field is configured and we are not overwriting, drop every row whose
date value lies in the persisted date-string set. -/
def mergeFiltered (file : Option CsvFile) (rows : List Row)
    (date_field : Option String) (overwrite : Bool) : List Row :=
  match date_field with
  | none => rows
  | some df =>
    if overwrite then rows
    else
      let existing_dates := (read_existing_dates file df).1
      rows.filter (fun r =>
        match rowGet r df with
        | some v => ¬ v ∈ existing_dates
        | none => True)

/-- Outcome of one per-instrument merge: the resulting file and the
missing-fields warning (if any). -/
structure MergeOutcome where
  file : Option CsvFile
  warning : Option (List String)
deriving DecidableEq, Repr

/-- The per-instrument merge step of `main` (kcb_daily.py:398-418):
choose the write header, report missing fields, filter duplicate dates,
and write. -/
def merge_step (file : Option CsvFile) (rows : List Row)
    (computed_header : List String) (date_field : Option String)
    (overwrite : Bool) : MergeOutcome :=
  { file := write_csv_rows file (mergeHeader file computed_header)
      (mergeFiltered file rows date_field overwrite) overwrite
    warning := mergeWarning file computed_header }

/-! ## Moving-average engine (`compute_ma`, identical in
`kcb_signal_ma120.py:23-33` and `kcb_signal_ma20_ma30.py:23-33`) -/

/-- The running-sum loop of `compute_ma` (lines 30-32): starting at
index `idx` with the window sum of the `window` values ending at
`idx - 1`, emit the entries for indices `idx, …, n-1`, updating the sum
by adding the entering value and subtracting the leaving one. -/
def maFrom (values : List ℚ) (window : Nat) (idx : Nat) (wsum : ℚ) :
    List (Option ℚ) :=
  if idx < values.length then
    let wsum2 := wsum + values.getD idx 0 - values.getD (idx - window) 0
    some (wsum2 / window) :: maFrom values window (idx + 1) wsum2
  else []
termination_by values.length - idx

/-- `compute_ma`: all-`None` output when fewer values than the window;
otherwise `None` up to index `window - 2`, the mean of the first window
at index `window - 1`, and the running-sum results beyond. -/
def compute_ma (values : List ℚ) (window : Nat) : List (Option ℚ) :=
  if values.length < window then List.replicate values.length none
  else
    let window_sum := (values.take window).sum
    List.replicate (window - 1) (none : Option ℚ) ++
      some (window_sum / window) :: maFrom values window window window_sum

/-- Sum of the `w` values of `v` starting at index `a`. -/
def sumFrom (v : List ℚ) (a w : Nat) : ℚ :=
  ((v.drop a).take w).sum

/-- Modelled from the spec: the direct-sum reference mean at index `i`,
"the arithmetic mean of values in `[i−w+1, i]`" (spec §4.3), computed
by summing the window afresh rather than by the running sum. -/
def directMean (v : List ℚ) (w i : Nat) : ℚ :=
  sumFrom v (i + 1 - w) w / w

/-! ## Crossover detector (`find_signal`, kcb_signal_ma120.py:67-106) -/

/-- One observation row of the signal scripts as produced by
`load_series`: parsed integer date, raw date string, close. -/
structure Obs where
  date_int : Nat
  date_raw : String
  close : ℚ
deriving DecidableEq, Repr

instance : Inhabited Obs := ⟨⟨0, "", 0⟩⟩

/-- The result dictionary of `find_signal` (price values kept as exact
rationals; the Python code formats them to 4 decimals on output). -/
structure CrossSignal where
  down_date : String
  up_date : String
  last_date : String
  last_close : ℚ
  last_ma : ℚ
deriving DecidableEq, Repr

/-- The scan loop of `find_signal` (lines 79-94): seek the first
down-cross, then the first up-cross strictly after it, skipping days
whose MA (or previous-day MA) is undefined; returns the recorded
`down_idx` and `up_idx`. -/
def findSignalLoop (closes : List ℚ) (ma : List (Option ℚ))
    (total : Nat) (idx : Nat) (down : Option Nat) :
    Option Nat × Option Nat :=
  if idx < total then
    if idx = 0 ∨ ma.getD idx none = none ∨ ma.getD (idx - 1) none = none then
      findSignalLoop closes ma total (idx + 1) down
    else
      let prev_close := closes.getD (idx - 1) 0
      let prev_ma := (ma.getD (idx - 1) none).getD 0
      let close := closes.getD idx 0
      let cur_ma := (ma.getD idx none).getD 0
      match down with
      | none =>
        if prev_close ≥ prev_ma ∧ close < cur_ma then
          findSignalLoop closes ma total (idx + 1) (some idx)
        else
          findSignalLoop closes ma total (idx + 1) none
      | some d =>
        if prev_close < prev_ma ∧ close ≥ cur_ma then (some d, some idx)
        else findSignalLoop closes ma total (idx + 1) (some d)
  else (down, none)
termination_by total - idx

/-- `find_signal` (kcb_signal_ma120.py:67-106). -/
def find_signal (rows : List Obs) (window_days ma_window : Nat) :
    Option CrossSignal :=
  if rows.length < ma_window then none
  else
    let closes := rows.map (fun r => r.close)
    let ma_values := compute_ma closes ma_window
    let count := rows.length
    let window_start := max (ma_window - 1) (count - window_days)
    match findSignalLoop closes ma_values count window_start none with
    | (some down_idx, some up_idx) =>
      some { down_date := (rows.getD down_idx default).date_raw
             up_date := (rows.getD up_idx default).date_raw
             last_date := (rows.getD (count - 1) default).date_raw
             last_close := closes.getD (count - 1) 0
             last_ma := (ma_values.getD (count - 1) none).getD 0 }
    | _ => none

/-! ## Band-trend detector (`check_ma_signal`, kcb_signal_ma20_ma30.py:67-127) -/

/-- Result of the band-adherence loop (lines 94-103): `invalid` when an
MA value in the window is missing or non-positive (the `return None` at
line 99), `exceeded` when the outside count passes `max_outside` (the
`return None` at line 103), `ok` with the final outside count when the
loop completes. -/
inductive BandScan where
  | invalid : BandScan
  | exceeded : BandScan
  | ok : Nat → BandScan
deriving DecidableEq, Repr

/-- The band-adherence loop of `check_ma_signal` (lines 94-103);
`if ma is None or ma <= 0: return None` is the `invalid` branch. -/
def bandLoop (closes : List ℚ) (ma : List (Option ℚ)) (band : ℚ)
    (max_outside : Int) (total : Nat) (idx : Nat) (outside : Nat) :
    BandScan :=
  if idx < total then
    if (ma.getD idx none).isNone ∨ (ma.getD idx none).getD 0 ≤ 0 then .invalid
    else if |closes.getD idx 0 - (ma.getD idx none).getD 0| /
        (ma.getD idx none).getD 0 > band then
      if (outside + 1 : Int) > max_outside then .exceeded
      else bandLoop closes ma band max_outside total (idx + 1) (outside + 1)
    else bandLoop closes ma band max_outside total (idx + 1) outside
  else .ok outside
termination_by total - idx

/-- The up-days loop of `check_ma_signal` (lines 105-112): `None` when
an MA value (current or previous) is missing, else the count of days
with `cur ≥ prev`. -/
def upLoop (ma : List (Option ℚ)) (total : Nat) (idx : Nat) (up : Nat) :
    Option Nat :=
  if idx < total then
    if (ma.getD (idx - 1) none).isNone ∨ (ma.getD idx none).isNone then none
    else
      upLoop ma total (idx + 1)
        (if (ma.getD idx none).getD 0 ≥ (ma.getD (idx - 1) none).getD 0
         then up + 1 else up)
  else some up
termination_by total - idx

/-- The result dictionary of `check_ma_signal` (numeric values kept
exact; Python formats them on output). -/
structure BandSignal where
  start_date : String
  end_date : String
  last_close : ℚ
  last_ma : ℚ
  up_days : Nat
  rise_pct : ℚ
deriving DecidableEq, Repr

/-- The index of the first defined MA value, default 0
(kcb_signal_ma20_ma30.py:81-85). -/
def firstMaIdx (ma : List (Option ℚ)) : Nat :=
  match ma.findIdx? (fun v => v.isSome) with
  | some i => i
  | none => 0

/-- `check_ma_signal` (kcb_signal_ma20_ma30.py:67-127). -/
def check_ma_signal (rows : List Obs) (closes : List ℚ)
    (ma_values : List (Option ℚ)) (window_days : Nat) (band : ℚ)
    (max_outside : Int) (min_up_days : Int) (min_rise_pct : ℚ) :
    Option BandSignal :=
  let total := rows.length
  if total < window_days then none
  else
    let start_idx := total - window_days
    if start_idx < firstMaIdx ma_values then none
    else if (ma_values.getD start_idx none).isNone ∨
        (ma_values.getD (total - 1) none).isNone ∨
        (ma_values.getD start_idx none).getD 0 ≤ 0 then none
    else
      let start_ma := (ma_values.getD start_idx none).getD 0
      let end_ma := (ma_values.getD (total - 1) none).getD 0
      match bandLoop closes ma_values band max_outside total start_idx 0 with
      | .invalid => none
      | .exceeded => none
      | .ok _ =>
        if (upLoop ma_values total (start_idx + 1) 0).isNone then none
        else
          let up_days := (upLoop ma_values total (start_idx + 1) 0).getD 0
          if (up_days : Int) < min_up_days then none
          else
            let rise_pct := (end_ma - start_ma) / start_ma
            if rise_pct < min_rise_pct then none
            else
              some { start_date := (rows.getD start_idx default).date_raw
                     end_date := (rows.getD (total - 1) default).date_raw
                     last_close := closes.getD (total - 1) 0
                     last_ma := end_ma
                     up_days := up_days
                     rise_pct := rise_pct }

/-! ## Rolling new-high detector (`find_new_high`,
kcb_signal_new_high_20d.py:67-95) -/

/-- One row of `load_series` in kcb_signal_new_high_20d.py: parsed
date, raw date string, chosen price field value, and the optional
high/close values. -/
structure HighObs where
  date_int : Nat
  date_raw : String
  price : ℚ
  high : Option ℚ
  close : Option ℚ
deriving DecidableEq, Repr

instance : Inhabited HighObs := ⟨⟨0, "", 0, none, none⟩⟩

/-- The result dictionary of `find_new_high`. -/
structure HighSignal where
  window_start : String
  last_date : String
  last_price : ℚ
  prior_max : ℚ
  window_max : ℚ
  last_high : Option ℚ
  last_close : Option ℚ
deriving DecidableEq, Repr

/-- Python `max` over a (nonempty) list of floats; 0 on the empty list,
which the guarded code never reaches. -/
def maxQ : List ℚ → ℚ
  | [] => 0
  | x :: xs => xs.foldl max x

/-- `find_new_high` (kcb_signal_new_high_20d.py:67-95). -/
def find_new_high (rows : List HighObs) (window_days : Nat)
    (include_equal : Bool) : Option HighSignal :=
  if rows.length < window_days ∨ window_days < 2 then none
  else
    let window_rows := rows.drop (rows.length - window_days)
    let prices := window_rows.map (fun r => r.price)
    let last_price := prices.getLast?.getD 0
    let prior_max := maxQ prices.dropLast
    if (if include_equal then last_price < prior_max
        else last_price ≤ prior_max) then none
    else
      let window_max := maxQ prices
      some { window_start := (window_rows.getD 0 default).date_raw
             last_date := (window_rows.getD (window_rows.length - 1) default).date_raw
             last_price := last_price
             prior_max := prior_max
             window_max := window_max
             last_high := (window_rows.getD (window_rows.length - 1) default).high
             last_close := (window_rows.getD (window_rows.length - 1) default).close }

/-! ## Theorems -/

/-- C3: for every instrument the fetch begin bound actually used equals
the maximum of the requested begin date, the latest persisted date
(omitted under overwrite or when no parseable persisted date exists),
and the recency floor `today − (N−1) days` in YYYYMMDD integer form
when a positive recent-days count is configured; in particular, with no
persisted file the bound is `max(requested_begin, recency_floor)`. -/
theorem effective_beg_is_max (beg : Int) (file : Option CsvFile)
    (df : String) (today : Nat) (recent_days : Option Int) (ow : Bool) :
    effectiveBeg beg ow true file df (compute_recent_beg today recent_days) =
      max (max beg
          (if ow then beg
           else Option.elim (read_existing_dates file df).2 beg Int.ofNat))
        (Option.elim recent_days beg (fun n =>
          if 0 < n then Int.ofNat (ymdToInt (ord2ymd (today - (n.toNat - 1))))
          else beg)) ∧
    effectiveBeg beg false true none df (compute_recent_beg today recent_days) =
      max beg (Option.elim recent_days beg (fun n =>
        if 0 < n then Int.ofNat (ymdToInt (ord2ymd (today - (n.toNat - 1))))
        else beg)) := by
  have hnone : (read_existing_dates none df).2 = none := rfl
  constructor
  · rcases recent_days with _ | n
    · cases ow <;>
        rcases h : (read_existing_dates file df).2 with _ | l <;>
          simp [effectiveBeg, compute_recent_beg, h]
    · by_cases hn : n ≤ 0
      · cases ow <;>
          rcases h : (read_existing_dates file df).2 with _ | l <;>
            simp [effectiveBeg, compute_recent_beg, hn, h] <;> omega
      · cases ow <;>
          rcases h : (read_existing_dates file df).2 with _ | l <;>
            simp [effectiveBeg, compute_recent_beg, hn, h] <;> omega
  · rcases recent_days with _ | n
    · simp [effectiveBeg, compute_recent_beg, hnone]
    · by_cases hn : n ≤ 0 <;>
        simp [effectiveBeg, compute_recent_beg, hn, hnone] <;> omega

/-- The prices of the trailing `w` observations (the window scanned by
`find_new_high`). -/
def windowPrices (rows : List HighObs) (w : Nat) : List ℚ :=
  (rows.drop (rows.length - w)).map (fun r => r.price)

/-- C9: with `window_days ≥ 2` and at least `window_days` observations,
the new-high detector fires iff the last bar's chosen price field is
`≥` the maximum of that field over the prior bars of the window when
equality counts, and strictly `>` otherwise; with `window_days < 2` or
fewer observations it never fires. -/
theorem find_new_high_fires_iff (rows : List HighObs) (w : Nat)
    (include_equal : Bool) :
    (find_new_high rows w include_equal).isSome = true ↔
      (2 ≤ w ∧ w ≤ rows.length ∧
        (if include_equal then
          maxQ (windowPrices rows w).dropLast ≤ (windowPrices rows w).getLast?.getD 0
         else
          maxQ (windowPrices rows w).dropLast < (windowPrices rows w).getLast?.getD 0)) := by
  by_cases hg : rows.length < w ∨ w < 2
  · simp only [find_new_high, if_pos hg]
    simp only [Option.isSome_none]
    constructor
    · intro h; cases h
    · rintro ⟨h2, hle, _⟩; omega
  · push_neg at hg
    simp only [find_new_high, if_neg (by omega : ¬ (rows.length < w ∨ w < 2))]
    cases include_equal <;>
      simp [windowPrices, hg.2, hg.1, not_lt, not_le]

/-! ### Row and date-set lemmas -/

/-- Membership in the date-string set built by the
`read_existing_dates` fold, with an arbitrary starting accumulator. -/
theorem mem_readDates_foldl (df : String) (header : List String)
    (l : List (List String)) (acc : List String × Option Nat) (v : String) :
    v ∈ (l.foldl (readDatesStep df header) acc).1 ↔
      v ∈ acc.1 ∨ (v ≠ "" ∧ ∃ c ∈ l, rowGet (recordRow header c) df = some v) := by
  induction l generalizing acc with
  | nil => simp
  | cons c l ih =>
    simp only [List.foldl_cons, ih, List.mem_cons]
    rcases h : rowGet (recordRow header c) df with _ | w
    · simp only [readDatesStep, h]
      constructor
      · rintro (hv | hv)
        · exact Or.inl hv
        · exact Or.inr ⟨hv.1, hv.2.choose, Or.inr hv.2.choose_spec.1, hv.2.choose_spec.2⟩
      · rintro (hv | ⟨hne, c', hc' | hc', hget⟩)
        · exact Or.inl hv
        · exact absurd (hc' ▸ hget) (by simp [h])
        · exact Or.inr ⟨hne, c', hc', hget⟩
    · by_cases hw : w = ""
      · subst hw
        simp only [readDatesStep, h, if_pos rfl]
        constructor
        · rintro (hv | hv)
          · exact Or.inl hv
          · exact Or.inr ⟨hv.1, hv.2.choose, Or.inr hv.2.choose_spec.1, hv.2.choose_spec.2⟩
        · rintro (hv | ⟨hne, c', hc' | hc', hget⟩)
          · exact Or.inl hv
          · exact absurd (hc' ▸ hget) (by simp [h, Ne.symm hne])
          · exact Or.inr ⟨hne, c', hc', hget⟩
      · have hstep : (readDatesStep df header acc c).1 = w :: acc.1 := by
          simp only [readDatesStep, h, if_neg hw]
          rcases parse_date_int w with _ | p
          · rfl
          · rcases acc.2 with _ | l' <;> rfl
        rw [hstep]
        simp only [List.mem_cons]
        constructor
        · rintro ((hv | hv) | hv)
          · subst hv; exact Or.inr ⟨hw, c, Or.inl rfl, h⟩
          · exact Or.inl hv
          · exact Or.inr ⟨hv.1, hv.2.choose, Or.inr hv.2.choose_spec.1, hv.2.choose_spec.2⟩
        · rintro (hv | ⟨hne, c', hc' | hc', hget⟩)
          · exact Or.inl (Or.inr hv)
          · subst hc'
            rw [h] at hget
            exact Or.inl (Or.inl (Option.some_injective _ hget).symm)
          · exact Or.inr ⟨hne, c', hc', hget⟩

/-- A string is in the persisted date set iff it is the nonempty date
value of some record of the file. -/
theorem mem_read_existing_dates (f : CsvFile) (df v : String) :
    v ∈ (read_existing_dates (some f) df).1 ↔
      (v ≠ "" ∧ ∃ c ∈ f.records, rowGet (recordRow f.header c) df = some v) := by
  unfold read_existing_dates
  rw [mem_readDates_foldl]
  simp

/-- Looking up a key of the header in the record written for a row
recovers that row's value for the key (or `""` when absent). -/
theorem rowGet_recordRow_projectRow (h : List String) (r : Row)
    (k : String) (hk : k ∈ h) :
    rowGet (recordRow h (projectRow h r)) k = some ((rowGet r k).getD "") := by
  unfold recordRow projectRow
  induction h with
  | nil => cases hk
  | cons x h ih =>
    by_cases hx : x = k
    · subst hx
      simp [rowGet, List.find?_cons]
    · rcases List.mem_cons.mp hk with hk | hk
      · exact absurd hk.symm hx
      · simpa [rowGet, List.find?_cons, hx] using ih hk

/-- C10: duplicate filtering during a non-overwrite merge is by exact
string equality against the raw persisted date strings — a new
observation whose date string differs textually from every persisted
date string survives the filter and is appended, even when its date
denotes the same calendar day as a persisted one in another form. -/
theorem dedup_is_textual (f : CsvFile) (rows : List Row)
    (ch : List String) (r : Row) (df v : String)
    (hr : r ∈ rows) (hv : rowGet r df = some v)
    (hdiff : ∀ s ∈ (read_existing_dates (some f) df).1, s ≠ v)
    (hsame : ∃ s ∈ (read_existing_dates (some f) df).1,
      parse_date_int s = parse_date_int v) :
    r ∈ mergeFiltered (some f) rows (some df) false ∧
    ∀ F, (merge_step (some f) rows ch (some df) false).file = some F →
      projectRow (mergeHeader (some f) ch) r ∈ F.records := by
  have hmem : r ∈ mergeFiltered (some f) rows (some df) false := by
    unfold mergeFiltered
    simp only [Bool.false_eq_true, if_false, List.mem_filter]
    refine ⟨hr, ?_⟩
    rw [hv]
    simpa using fun hmem => (hdiff v hmem) rfl
  refine ⟨hmem, fun F hF => ?_⟩
  unfold merge_step write_csv_rows at hF
  have hne : (mergeFiltered (some f) rows (some df) false).isEmpty = false := by
    rcases hk : mergeFiltered (some f) rows (some df) false with _ | ⟨a, l⟩
    · rw [hk] at hmem; cases hmem
    · rfl
  simp only [hne, Bool.false_eq_true, if_false, Option.isSome_some,
    Bool.false_or, Option.isNone_some] at hF
  cases hF
  exact List.mem_append_right _ (List.mem_map_of_mem _ hmem)

/-- The file and row used in the C10 witness: persisted date
`"20240101"`, fetched date `"2024-01-01"` — textually distinct forms of
the same calendar day. -/
def c10File : CsvFile := ⟨["date"], [["20240101"]]⟩

/-- The fetched row of the C10 witness. -/
def c10Row : Row := [("date", "2024-01-01")]

/-- Witness for C10: the alternate-form duplicate `"2024-01-01"` is not
filtered against persisted `"20240101"` and lands in the file. -/
theorem dedup_is_textual_witness :
    c10Row ∈ mergeFiltered (some c10File) [c10Row] (some "date") false ∧
    ∀ F, (merge_step (some c10File) [c10Row] ["date"] (some "date")
        false).file = some F →
      projectRow (mergeHeader (some c10File) ["date"]) c10Row ∈ F.records :=
  dedup_is_textual c10File [c10Row] ["date"] c10Row "date" "2024-01-01"
    (by decide)
    (by decide)
    (by decide)
    ⟨"20240101", by decide, by decide⟩

/-- Membership is invariant under `insertSorted`. -/
theorem mem_insertSorted (x y : String) (l : List String) :
    y ∈ insertSorted x l ↔ y = x ∨ y ∈ l := by
  induction l with
  | nil => simp [insertSorted]
  | cons z l ih =>
    by_cases h : x ≤ z
    · simp [insertSorted, h]
    · simp [insertSorted, h, ih]
      tauto

/-- Membership is invariant under `sortStrings`. -/
theorem mem_sortStrings (y : String) (l : List String) :
    y ∈ sortStrings l ↔ y ∈ l := by
  unfold sortStrings
  induction l with
  | nil => simp
  | cons z l ih => simp [mem_insertSorted, ih]

/-- Projection onto a header ignores the fields outside it: filtering a
row down to the header's keys does not change the written record. -/
theorem projectRow_filter_keys (h : List String) (r : Row) :
    projectRow h (r.filter (fun p => p.1 ∈ h)) = projectRow h r := by
  unfold projectRow
  refine List.map_congr_left (fun k hk => ?_)
  have : rowGet (r.filter (fun p => p.1 ∈ h)) k = rowGet r k := by
    unfold rowGet Row at *
    induction r with
    | nil => rfl
    | cons p r ih =>
      rw [List.filter_cons]
      by_cases hmem : p.1 ∈ h
      · rw [if_pos (by simpa using hmem)]
        by_cases hp : p.1 = k
        · simp [List.find?_cons, hp]
        · simp only [List.find?_cons, decide_eq_false hp]
          exact ih
      · have hp : ¬ p.1 = k := fun heq => hmem (heq ▸ hk)
        rw [if_neg (by simpa using hmem)]
        simp only [List.find?_cons, decide_eq_false hp]
        exact ih
  rw [this]

/-- C4: when a persisted header exists and the newly computed header
has fields outside it, the merge emits a non-fatal warning listing
exactly the missing fields, keeps the existing narrower header for the
write, and appends the new rows projected onto that header (so values
of fields outside it are discarded); the merge still produces a file. -/
theorem header_narrowing_warning (f : CsvFile) (rows : List Row)
    (ch : List String) (dfo : Option String) (x : String)
    (hne : f.header ≠ []) (hx : x ∈ ch) (hxn : ¬ x ∈ f.header) :
    ∃ w, mergeWarning (some f) ch = some w ∧ w ≠ [] ∧
      (∀ y, y ∈ w ↔ (y ∈ ch ∧ ¬ y ∈ f.header)) ∧
      mergeHeader (some f) ch = f.header ∧
      (merge_step (some f) rows ch dfo false).file =
        some ⟨f.header, f.records ++
          (mergeFiltered (some f) rows dfo false).map (projectRow f.header)⟩ ∧
      (∀ r : Row,
        projectRow f.header (r.filter (fun p => p.1 ∈ f.header)) =
          projectRow f.header r) := by
  have hhe : f.header.isEmpty = false := by
    rcases h : f.header with _ | _
    · exact absurd h hne
    · rfl
  have hheader : mergeHeader (some f) ch = f.header := by
    unfold mergeHeader read_csv_header
    simp [hhe]
  have hmissing : x ∈ (ch.filter (fun k => ¬ k ∈ f.header)).dedup := by
    simp only [List.mem_dedup, List.mem_filter]
    exact ⟨hx, by simpa using hxn⟩
  refine ⟨sortStrings ((ch.filter (fun k => ¬ k ∈ f.header)).dedup),
    ?_, ?_, ?_, hheader, ?_, fun r => projectRow_filter_keys f.header r⟩
  · unfold mergeWarning read_csv_header
    have : ((ch.filter (fun k => ¬ k ∈ f.header)).dedup).isEmpty = false := by
      rcases h : (ch.filter (fun k => ¬ k ∈ f.header)).dedup with _ | _
      · rw [h] at hmissing; cases hmissing
      · rfl
    simp [hhe, this]
    exact ⟨x, hx, hxn⟩
  · intro h
    rw [← mem_sortStrings x _, h] at hmissing
    cases hmissing
  · intro y
    rw [mem_sortStrings]
    simp [List.mem_dedup, List.mem_filter]
  · unfold merge_step write_csv_rows
    rw [hheader]
    rcases hk : (mergeFiltered (some f) rows dfo false) with _ | ⟨a, l⟩
    · simp
    · simp

/-- The persisted file of the C4 witness: header `[date, close]`. -/
def c4File : CsvFile := ⟨["date", "close"], [["20240101", "1"]]⟩

/-- The fetched row of the C4 witness, carrying a `volume` field absent
from the persisted header. -/
def c4Row : Row := [("date", "20240102"), ("close", "2"), ("volume", "5")]

/-- Witness for C4 at the spec's schema-narrowing scenario: persisted
header `[date, close]`, computed header `[date, close, volume]`. -/
theorem header_narrowing_warning_witness :
    ∃ w, mergeWarning (some c4File) ["date", "close", "volume"] = some w ∧
      w ≠ [] ∧
      (∀ y, y ∈ w ↔ (y ∈ ["date", "close", "volume"] ∧ ¬ y ∈ c4File.header)) ∧
      mergeHeader (some c4File) ["date", "close", "volume"] = c4File.header ∧
      (merge_step (some c4File) [c4Row] ["date", "close", "volume"]
          (some "date") false).file =
        some ⟨c4File.header, c4File.records ++
          (mergeFiltered (some c4File) [c4Row] (some "date") false).map
            (projectRow c4File.header)⟩ ∧
      (∀ r : Row,
        projectRow c4File.header (r.filter (fun p => p.1 ∈ c4File.header)) =
          projectRow c4File.header r) :=
  header_narrowing_warning c4File [c4Row] ["date", "close", "volume"]
    (some "date") "volume" (by decide) (by decide) (by decide)

/-- C2: the incremental merge is idempotent.  Re-running the merge with
identical fetch results on a persisted Series (date field present in
the header, every fetched row carrying a nonempty date value) filters
out every row — zero new rows — and leaves the persisted file
unchanged, no matter the computed header of the second run. -/
theorem merge_idempotent (f : CsvFile) (rows : List Row)
    (ch ch2 : List String) (df : String)
    (hdf : df ∈ f.header)
    (hrows : ∀ r ∈ rows, ∃ v, rowGet r df = some v ∧ v ≠ "") :
    mergeFiltered (merge_step (some f) rows ch (some df) false).file rows
      (some df) false = [] ∧
    (merge_step (merge_step (some f) rows ch (some df) false).file rows ch2
        (some df) false).file =
      (merge_step (some f) rows ch (some df) false).file := by
  have hne : f.header ≠ [] := List.ne_nil_of_mem hdf
  have hhe : f.header.isEmpty = false := by
    rcases h : f.header with _ | _
    · exact absurd h hne
    · rfl
  have hheader : mergeHeader (some f) ch = f.header := by
    unfold mergeHeader read_csv_header
    simp [hhe]
  -- the file after the first run
  obtain ⟨F, hF, hrecs⟩ :
      ∃ F, (merge_step (some f) rows ch (some df) false).file = some F ∧
        (∀ c ∈ f.records, c ∈ F.records) ∧ F.header = f.header ∧
        (∀ r ∈ mergeFiltered (some f) rows (some df) false,
          projectRow f.header r ∈ F.records) := by
    unfold merge_step write_csv_rows
    rw [hheader]
    rcases hk : (mergeFiltered (some f) rows (some df) false) with _ | ⟨a, l⟩
    · exact ⟨f, rfl, fun c hc => hc, rfl, by simp⟩
    · refine ⟨⟨f.header, f.records ++ (a :: l).map (projectRow f.header)⟩,
        by simp, fun c hc => List.mem_append_left _ hc, rfl, ?_⟩
      intro r hr
      exact List.mem_append_right _ (List.mem_map_of_mem _ hr)
  obtain ⟨hsub, hFh, happ⟩ := hrecs
  -- every fetched date string is in the second run's persisted date set
  have hdates : ∀ r ∈ rows, ∀ v, rowGet r df = some v → v ≠ "" →
      v ∈ (read_existing_dates (some F) df).1 := by
    intro r hr v hv hvne
    by_cases hkept : r ∈ mergeFiltered (some f) rows (some df) false
    · have hproj := happ r hkept
      rw [mem_read_existing_dates]
      refine ⟨hvne, projectRow f.header r, hproj, ?_⟩
      rw [hFh, rowGet_recordRow_projectRow f.header r df hdf, hv]
      rfl
    · have hpred : v ∈ (read_existing_dates (some f) df).1 := by
        by_contra hnot
        apply hkept
        unfold mergeFiltered
        simp only [Bool.false_eq_true, if_false, List.mem_filter]
        refine ⟨hr, ?_⟩
        rw [hv]
        simpa using hnot
      rw [mem_read_existing_dates] at hpred ⊢
      obtain ⟨hvne', c, hc, hget⟩ := hpred
      exact ⟨hvne', c, hsub c hc, by rw [hFh]; exact hget⟩
  -- hence the second run's duplicate filter drops everything
  have hempty : mergeFiltered (some F) rows (some df) false = [] := by
    unfold mergeFiltered
    simp only [Bool.false_eq_true, if_false]
    rw [List.filter_eq_nil_iff]
    intro r hr
    obtain ⟨v, hv, hvne⟩ := hrows r hr
    rw [hv]
    simpa using hdates r hr v hv hvne
  rw [hF]
  refine ⟨hempty, ?_⟩
  unfold merge_step write_csv_rows
  rw [hempty]
  rfl

/-- The persisted file of the C2 witness. -/
def c2File : CsvFile := ⟨["date", "close"], [["20240101", "1"]]⟩

/-- The fetched rows of the C2 witness: one duplicate of the persisted
date and one genuinely new date. -/
def c2Rows : List Row :=
  [[("date", "20240101"), ("close", "1")], [("date", "20240102"), ("close", "2")]]

/-- Witness for C2 at a concrete persisted file and fetch result. -/
theorem merge_idempotent_witness :
    mergeFiltered (merge_step (some c2File) c2Rows ["date", "close"]
        (some "date") false).file c2Rows (some "date") false = [] ∧
    (merge_step (merge_step (some c2File) c2Rows ["date", "close"]
          (some "date") false).file c2Rows ["date", "close"]
        (some "date") false).file =
      (merge_step (some c2File) c2Rows ["date", "close"]
        (some "date") false).file :=
  merge_idempotent c2File c2Rows ["date", "close"] ["date", "close"] "date"
    (by decide) (by decide)

/-! ### Ordering of the persisted series (C1) -/

/-- The parsed date of each record of a file, in file order. -/
def fileDates (f : CsvFile) (df : String) : List (Option Nat) :=
  f.records.map (fun c => (rowGet (recordRow f.header c) df).bind parse_date_int)

/-- The parsed date of a fetched row. -/
def rowDate (r : Row) (df : String) : Option Nat :=
  (rowGet r df).bind parse_date_int

/-- Strict order on optional parsed dates: both present and increasing. -/
def OptLt (a b : Option Nat) : Prop :=
  ∃ p q, a = some p ∧ b = some q ∧ p < q

/-- A persisted file is strictly increasing by date: each adjacent pair
of records has parseable dates in strictly increasing order. -/
def StrictByDate (f : CsvFile) (df : String) : Prop :=
  List.Chain' OptLt (fileDates f df)

/-- Counterexample to C1 as stated: merging the fetched rows in arrival
order `20240103, 20240102` (both new) onto a persisted series
`[20240101]` appends them unsorted, so the resulting file is not
strictly increasing by date — the ordering invariant does not hold for
every arrival order. -/
theorem merge_not_ordered_counterexample :
    (merge_step (some ⟨["date"], [["20240101"]]⟩)
        [[("date", "20240103")], [("date", "20240102")]]
        ["date"] (some "date") false).file =
      some ⟨["date"], [["20240101"], ["20240103"], ["20240102"]]⟩ ∧
    ¬ StrictByDate ⟨["date"], [["20240101"], ["20240103"], ["20240102"]]⟩
        "date" := by
  constructor
  · decide
  · intro h
    have hd : fileDates ⟨["date"], [["20240101"], ["20240103"], ["20240102"]]⟩
        "date" = [some 20240101, some 20240103, some 20240102] := by decide
    rw [StrictByDate, hd] at h
    simp only [List.chain'_cons, List.chain'_singleton, and_true, OptLt,
      Option.some.injEq] at h
    obtain ⟨-, p, q, hp, hq, hlt⟩ := h
    omega

/-- C1 (amended): after a successful non-overwrite merge on a persisted
Series whose records are strictly increasing by (parseable) date, the
resulting file is strictly increasing by date provided the fetched rows
arrive in strictly increasing date order and each of them is either a
textual duplicate of a persisted date string or dated strictly after
every persisted date.  (For arbitrary arrival orders the invariant
fails, see the counterexample: rows are appended in arrival order and
never re-sorted.) -/
theorem merge_ordered_of_sorted_arrivals (f : CsvFile) (rows : List Row)
    (ch : List String) (df : String)
    (hdf : df ∈ f.header)
    (hP : StrictByDate f df)
    (hPparse : ∀ o ∈ fileDates f df, o.isSome = true)
    (hN : List.Pairwise OptLt (rows.map (fun r => rowDate r df)))
    (hdich : ∀ r ∈ rows,
      (∃ v, rowGet r df = some v ∧ v ∈ (read_existing_dates (some f) df).1) ∨
      (∃ p, rowDate r df = some p ∧
        ∀ o ∈ fileDates f df, ∀ q, o = some q → q < p)) :
    ∀ F, (merge_step (some f) rows ch (some df) false).file = some F →
      StrictByDate F df := by
  intro F hF
  have hne : f.header ≠ [] := List.ne_nil_of_mem hdf
  have hhe : f.header.isEmpty = false := by
    rcases h : f.header with _ | _
    · exact absurd h hne
    · rfl
  have hheader : mergeHeader (some f) ch = f.header := by
    unfold mergeHeader read_csv_header
    simp [hhe]
  have hkeptsub : (mergeFiltered (some f) rows (some df) false).Sublist rows := by
    unfold mergeFiltered
    simp only [Bool.false_eq_true, if_false]
    exact List.filter_sublist rows
  -- the dates of a kept row, via the projected record
  have hprojdate : ∀ r : Row,
      (rowGet (recordRow f.header (projectRow f.header r)) df).bind
        parse_date_int = rowDate r df := by
    intro r
    rw [rowGet_recordRow_projectRow f.header r df hdf]
    unfold rowDate
    rcases h : rowGet r df with _ | v
    · rfl
    · rfl
  -- a kept row is dated strictly after every persisted date
  have hkeptgt : ∀ r ∈ mergeFiltered (some f) rows (some df) false,
      ∃ p, rowDate r df = some p ∧
        ∀ o ∈ fileDates f df, ∀ q, o = some q → q < p := by
    intro r hr
    have hrmem : r ∈ rows := hkeptsub.mem hr
    have hrpred : r ∈ rows.filter (fun r =>
        match rowGet r df with
        | some v => ¬ v ∈ (read_existing_dates (some f) df).1
        | none => True) := by
      unfold mergeFiltered at hr
      simpa using hr
    rcases hdich r hrmem with ⟨v, hv, hvmem⟩ | hgt
    · exfalso
      rw [List.mem_filter, hv] at hrpred
      have hnot : ¬ v ∈ (read_existing_dates (some f) df).1 := by
        simpa using hrpred.2
      exact hnot hvmem
    · exact hgt
  -- unfold the write
  unfold merge_step write_csv_rows at hF
  rw [hheader] at hF
  rcases hk : (mergeFiltered (some f) rows (some df) false) with _ | ⟨a, l⟩
  · rw [hk] at hF
    simp only [List.isEmpty_nil, if_true, Option.some.injEq] at hF
    exact hF ▸ hP
  · rw [hk] at hF
    simp only [List.isEmpty_cons, Bool.false_eq_true, if_false,
      Option.isNone_some, Bool.or_false, Option.some.injEq] at hF
    subst hF
    unfold StrictByDate fileDates
    simp only [List.map_append, List.map_map]
    rw [List.chain'_append]
    refine ⟨hP, ?_, ?_⟩
    · -- the appended block is chained: arrival order is sorted
      have hmapeq : ((a :: l).map (projectRow f.header)).map
          (fun c => (rowGet (recordRow f.header c) df).bind parse_date_int) =
          (a :: l).map (fun r => rowDate r df) := by
        rw [List.map_map]
        exact List.map_congr_left (fun r _ => hprojdate r)
      rw [← List.map_map, hmapeq]
      have hsub2 : ((a :: l).map (fun r => rowDate r df)).Sublist
          (rows.map (fun r => rowDate r df)) :=
        List.Sublist.map _ (hk ▸ hkeptsub)
      exact (List.Pairwise.sublist hsub2 hN).chain'
    · -- the junction: first kept date exceeds every persisted date
      intro x hx y hy
      obtain ⟨p, hp, hpgt⟩ := hkeptgt a (hk ▸ List.mem_cons_self a l)
      have hy' : y = rowDate a df := by
        simp only [List.map_map, List.map_cons, List.head?_cons,
          Option.mem_def, Option.some.injEq] at hy
        rw [← hy]
        simpa [Function.comp] using hprojdate a
      have hxmem : x ∈ f.records.map (fun c =>
          (rowGet (recordRow f.header c) df).bind parse_date_int) := by
        obtain ⟨hnil, hxl⟩ := List.mem_getLast?_eq_getLast hx
        exact hxl ▸ List.getLast_mem hnil
      have hxsome := hPparse x hxmem
      rcases hxeq : x with _ | q
      · rw [hxeq] at hxsome; cases hxsome
      · exact ⟨q, p, rfl, by rw [hy', hp], hpgt x hxmem q hxeq⟩

/-- The persisted file of the C1 witness. -/
def c1File : CsvFile := ⟨["date"], [["20240101"]]⟩

/-- The fetched rows of the C1 witness: one textual duplicate of the
persisted date, then two new rows in increasing date order. -/
def c1Rows : List Row :=
  [[("date", "20240101")], [("date", "20240102")], [("date", "20240103")]]

/-- Witness for the amended C1 at a concrete sorted fetch result. -/
theorem merge_ordered_of_sorted_arrivals_witness :
    StrictByDate ⟨["date"], [["20240101"], ["20240102"], ["20240103"]]⟩
      "date" := by
  have hd : fileDates c1File "date" = [some 20240101] := by decide
  refine merge_ordered_of_sorted_arrivals c1File c1Rows ["date"] "date"
    (by decide) ?_ (by decide) ?_ ?_ _ (by decide)
  · rw [StrictByDate, hd]
    exact List.chain'_singleton _
  · have : c1Rows.map (fun r => rowDate r "date") =
        [some 20240101, some 20240102, some 20240103] := by decide
    rw [this]
    refine List.pairwise_cons.mpr ⟨?_, List.pairwise_cons.mpr ⟨?_, ?_⟩⟩
    · intro o ho
      rcases List.mem_cons.mp ho with ho | ho
      · exact ho ▸ ⟨20240101, 20240102, rfl, rfl, by omega⟩
      · rw [List.mem_singleton] at ho
        exact ho ▸ ⟨20240101, 20240103, rfl, rfl, by omega⟩
    · intro o ho
      rw [List.mem_singleton] at ho
      exact ho ▸ ⟨20240102, 20240103, rfl, rfl, by omega⟩
    · simp
  · intro r hr
    rcases List.mem_cons.mp hr with hr | hr
    · exact Or.inl ⟨"20240101", by rw [hr]; decide, by decide⟩
    · rcases List.mem_cons.mp hr with hr | hr
      · refine Or.inr ⟨20240102, by rw [hr]; decide, ?_⟩
        intro o ho q hq
        rw [hd, List.mem_singleton] at ho
        rw [ho] at hq
        injection hq with hq
        omega
      · rcases List.mem_cons.mp hr with hr | hr
        · refine Or.inr ⟨20240103, by rw [hr]; decide, ?_⟩
          intro o ho q hq
          rw [hd, List.mem_singleton] at ho
          rw [ho] at hq
          injection hq with hq
          omega
        · cases hr

/-! ### Moving-average correctness (C5) -/

/-- Extending a window sum on the right by one in-range element. -/
theorem sumFrom_succ_right (v : List ℚ) (a w : Nat) (h : a + w < v.length) :
    sumFrom v a (w + 1) = sumFrom v a w + v.getD (a + w) 0 := by
  unfold sumFrom
  have hw : w < (v.drop a).length := by
    rw [List.length_drop]; omega
  rw [List.sum_take_succ _ w hw]
  congr 1
  rw [List.getElem_drop]
  rw [List.getD_eq_getElem?_getD, List.getElem?_eq_getElem (by omega)]
  rfl

/-- Extending a window sum on the left by its first element. -/
theorem sumFrom_succ_left (v : List ℚ) (a w : Nat) (h : a < v.length) :
    sumFrom v a (w + 1) = v.getD a 0 + sumFrom v (a + 1) w := by
  unfold sumFrom
  rw [List.drop_eq_getElem_cons h, List.take_succ_cons, List.sum_cons]
  congr 1
  rw [List.getD_eq_getElem?_getD, List.getElem?_eq_getElem h]
  rfl

/-- Sliding a window sum one step right: add the entering value and
subtract the leaving one. -/
theorem sumFrom_slide (v : List ℚ) (a w : Nat) (h : a + w < v.length) :
    sumFrom v (a + 1) w = sumFrom v a w + v.getD (a + w) 0 - v.getD a 0 := by
  have h1 := sumFrom_succ_right v a w h
  have h2 := sumFrom_succ_left v a w (by omega)
  linarith

/-- The length of the running-sum loop output. -/
theorem maFrom_length (v : List ℚ) (w : Nat) :
    ∀ (fuel idx : Nat) (wsum : ℚ), v.length - idx = fuel →
      (maFrom v w idx wsum).length = v.length - idx := by
  intro fuel
  induction fuel with
  | zero =>
    intro idx wsum hfuel
    rw [maFrom, if_neg (by omega), hfuel]
    rfl
  | succ fuel ih =>
    intro idx wsum hfuel
    have hidx : idx < v.length := by omega
    rw [maFrom, if_pos hidx]
    show ((some _) :: maFrom v w (idx + 1) _).length = _
    rw [List.length_cons, ih (idx + 1) _ (by omega)]
    omega

/-- The running-sum loop computes exactly the direct window sums: from
index `idx` with the sum of the window ending at `idx - 1`, the entry
at offset `j` is the mean of the window ending at `idx + j`. -/
theorem maFrom_getElem? (v : List ℚ) (w : Nat) :
    ∀ (fuel idx : Nat), v.length - idx = fuel → w ≤ idx → ∀ (j : Nat),
      (maFrom v w idx (sumFrom v (idx - w) w))[j]? =
        if idx + j < v.length then
          some (some (sumFrom v (idx + j + 1 - w) w / w))
        else none := by
  intro fuel
  induction fuel with
  | zero =>
    intro idx hfuel hw j
    rw [maFrom, if_neg (by omega), if_neg (by omega)]
    rfl
  | succ fuel ih =>
    intro idx hfuel hw j
    have hidx : idx < v.length := by omega
    rw [maFrom, if_pos hidx]
    have hw2 : sumFrom v (idx - w) w + v.getD idx 0 - v.getD (idx - w) 0 =
        sumFrom v (idx + 1 - w) w := by
      have hs := sumFrom_slide v (idx - w) w (by omega)
      rw [show idx - w + w = idx from by omega] at hs
      rw [show idx - w + 1 = idx + 1 - w from by omega] at hs
      linarith
    show (some ((sumFrom v (idx - w) w + v.getD idx 0 - v.getD (idx - w) 0) / w) ::
        maFrom v w (idx + 1)
          (sumFrom v (idx - w) w + v.getD idx 0 - v.getD (idx - w) 0))[j]? = _
    rw [hw2]
    rcases j with _ | j
    · rw [List.getElem?_cons_zero, if_pos (by omega)]
    · rw [List.getElem?_cons_succ]
      rw [show idx + 1 - w = (idx + 1) - w from rfl]
      rw [ih (idx + 1) (by omega) (by omega) j]
      have harith : idx + 1 + j = idx + (j + 1) := by omega
      rw [harith]

/-- The element-by-element description of `compute_ma` when the series
is at least as long as the window. -/
theorem compute_ma_getElem? (v : List ℚ) (w : Nat) (hw : 1 ≤ w)
    (hlen : w ≤ v.length) (i : Nat) :
    (compute_ma v w)[i]? =
      if i < w - 1 then some none
      else if i < v.length then some (some (directMean v w i)) else none := by
  have hsum0 : (v.take w).sum = sumFrom v (w - w) w := by
    simp [sumFrom]
  unfold compute_ma
  rw [if_neg (by omega)]
  show (List.replicate (w - 1) (none : Option ℚ) ++
      some ((v.take w).sum / w) :: maFrom v w w ((v.take w).sum))[i]? = _
  rw [hsum0]
  rw [List.getElem?_append]
  by_cases h1 : i < w - 1
  · rw [if_pos h1, if_pos (by simpa using h1)]
    rw [List.getElem?_replicate, if_pos h1]
  · rw [if_neg (by simpa using h1)]
    rcases Nat.eq_or_lt_of_le (Nat.le_of_not_lt h1) with h2 | h2
    · rw [List.length_replicate, show i - (w - 1) = 0 from by omega,
        List.getElem?_cons_zero]
      rw [if_neg h1, if_pos (by omega)]
      unfold directMean
      rw [show w - w = 0 from by omega, show i + 1 - w = 0 from by omega]
    · rw [List.length_replicate,
        show i - (w - 1) = (i - w) + 1 from by omega, List.getElem?_cons_succ]
      rw [maFrom_getElem? v w (v.length - w) w rfl le_rfl (i - w)]
      rw [show w + (i - w) = i from by omega]
      by_cases h3 : i < v.length
      · rw [if_pos h3, if_neg h1, if_pos h3]
        rfl
      · rw [if_neg h3, if_neg h1, if_neg h3]

/-- C5: for a window `w ≥ 1`, `compute_ma` returns a list of the input
length whose index `i` is `None` exactly when `n < w` or `i < w − 1`,
and otherwise holds the direct arithmetic mean of the `w` values ending
at `i` — the running-sum computation agrees exactly with the direct-sum
reference mean (prices are rationals, so arithmetic is exact). -/
theorem compute_ma_spec (v : List ℚ) (w : Nat) (hw : 1 ≤ w) :
    (compute_ma v w).length = v.length ∧
    (∀ i, i < v.length →
      ((compute_ma v w).getD i none = none ↔ (v.length < w ∨ i < w - 1))) ∧
    (w ≤ v.length → ∀ i, w - 1 ≤ i → i < v.length →
      (compute_ma v w).getD i none = some (directMean v w i)) := by
  refine ⟨?_, ?_, ?_⟩
  · by_cases hlen : v.length < w
    · unfold compute_ma
      rw [if_pos hlen, List.length_replicate]
    · unfold compute_ma
      rw [if_neg hlen]
      show (List.replicate (w - 1) (none : Option ℚ) ++
        some ((v.take w).sum / w) :: maFrom v w w ((v.take w).sum)).length = _
      rw [List.length_append, List.length_replicate, List.length_cons,
        maFrom_length v w (v.length - w) w ((v.take w).sum) rfl]
      omega
  · intro i hi
    by_cases hlen : v.length < w
    · unfold compute_ma
      rw [if_pos hlen, List.getD_eq_getElem?_getD, List.getElem?_replicate,
        if_pos hi]
      simp [hlen]
    · rw [List.getD_eq_getElem?_getD,
        compute_ma_getElem? v w hw (by omega) i]
      by_cases h1 : i < w - 1
      · rw [if_pos h1]
        simp [h1]
      · rw [if_neg h1, if_pos hi]
        simp [h1, hlen]
  · intro hlen i h1 hi
    rw [List.getD_eq_getElem?_getD, compute_ma_getElem? v w hw hlen i,
      if_neg (by omega), if_pos hi]
    rfl

/-- Witness for C5 at `v = [1, 2, 3, 4]`, `w = 2` (all three parts of
the theorem instantiated; index 2 carries the mean `(2 + 3) / 2`). -/
theorem compute_ma_spec_witness :
    (compute_ma [1, 2, 3, 4] 2).length = 4 ∧
    ((compute_ma [1, 2, 3, 4] 2).getD 0 none = none ↔ (4 < 2 ∨ (0 : Nat) < 1)) ∧
    (compute_ma [1, 2, 3, 4] 2).getD 2 none = some (directMean [1, 2, 3, 4] 2 2) := by
  have h := compute_ma_spec [1, 2, 3, 4] 2 (by decide)
  refine ⟨?_, ?_, ?_⟩
  · have := h.1
    simpa using this
  · have := h.2.1 0 (by simp)
    simpa using this
  · have := h.2.2 (by simp) 2 (by omega) (by simp)
    simpa using this

/-! ### Band adherence (C8) and the flat-MA scenario (C7) -/

/-- Modelled from the spec: "the number of window days with
`|close − MA| / MA` strictly greater than the configured band" over the
index range `[lo, hi)`. -/
def countOutside (closes : List ℚ) (ma : List (Option ℚ)) (band : ℚ)
    (lo hi : Nat) : Nat :=
  ((List.range' lo (hi - lo)).filter (fun i =>
    |closes.getD i 0 - (ma.getD i none).getD 0| /
      (ma.getD i none).getD 0 > band)).length

/-- The band loop, on a window whose MA values are all present and
positive and starting from an outside count still within tolerance,
returns `exceeded` or `ok` exactly according to the total outside
count. -/
theorem bandLoop_eq (closes : List ℚ) (ma : List (Option ℚ)) (band : ℚ)
    (max_outside : Int) (total lo : Nat)
    (hvalid : ∀ i, lo ≤ i → i < total →
      ∃ m, ma.getD i none = some m ∧ 0 < m) :
    ∀ (fuel idx : Nat) (acc : Nat), total - idx = fuel → lo ≤ idx →
      (acc : Int) ≤ max_outside →
      bandLoop closes ma band max_outside total idx acc =
        if (acc + countOutside closes ma band idx total : Int) > max_outside
        then .exceeded
        else .ok (acc + countOutside closes ma band idx total) := by
  intro fuel
  induction fuel with
  | zero =>
    intro idx acc hfuel hlo hacc
    have hcount : countOutside closes ma band idx total = 0 := by
      unfold countOutside
      rw [hfuel]
      rfl
    rw [bandLoop, if_neg (by omega), hcount]
    rw [if_neg (by push_cast; omega)]
    rfl
  | succ fuel ih =>
    intro idx acc hfuel hlo hacc
    have hidx : idx < total := by omega
    obtain ⟨m, hm, hmpos⟩ := hvalid idx hlo hidx
    have hcount : countOutside closes ma band idx total =
        (if |closes.getD idx 0 - m| / m > band then 1 else 0) +
          countOutside closes ma band (idx + 1) total := by
      unfold countOutside
      rw [show total - idx = (total - (idx + 1)) + 1 from by omega,
        List.range'_succ]
      rw [List.filter_cons]
      rw [hm]
      by_cases hout : |closes.getD idx 0 - m| / m > band
      · rw [if_pos (by simpa using hout), if_pos hout, List.length_cons]
        omega
      · rw [if_neg (by simpa using hout), if_neg hout]
        omega
    rw [bandLoop, if_pos hidx, hm]
    simp only [Option.isNone_some, Bool.false_eq_true, false_or,
      Option.getD_some]
    rw [if_neg (not_le.mpr hmpos)]
    by_cases hout : |closes.getD idx 0 - m| / m > band
    · rw [if_pos hout]
      rw [hcount, if_pos hout]
      by_cases hexc : (acc + 1 : Int) > max_outside
      · rw [if_pos hexc]
        rw [if_pos (by push_cast at hexc ⊢; omega)]
      · rw [if_neg hexc]
        rw [ih (idx + 1) (acc + 1) (by omega) (by omega) (by push_cast at hexc ⊢; omega)]
        have harith : ((acc + 1 : Nat) : Int) +
            (countOutside closes ma band (idx + 1) total : Int) =
            (acc : Int) + ((1 + countOutside closes ma band (idx + 1) total : Nat) : Int) := by
          push_cast
          ring
        rw [harith, Nat.add_assoc]
    · rw [if_neg hout]
      rw [hcount, if_neg hout]
      rw [ih (idx + 1) acc (by omega) (by omega) hacc]
      have harith : (0 + countOutside closes ma band (idx + 1) total : Nat) =
          countOutside closes ma band (idx + 1) total := by omega
      rw [harith]

/-- C8: on a window whose MA values are all present and positive, the
band-trend check fails on band adherence iff the number of window days
with `|close − MA| / MA > band` strictly exceeds `max_outside`; a
window with exactly `max_outside` outside days is not failed by this
condition; and a band-adherence failure makes `check_ma_signal` report
no signal. -/
theorem band_adherence_strict (closes : List ℚ) (ma : List (Option ℚ))
    (band : ℚ) (max_outside : Int) (total start : Nat)
    (hvalid : ∀ i, start ≤ i → i < total →
      ∃ m, ma.getD i none = some m ∧ 0 < m)
    (hmo : 0 ≤ max_outside) :
    (bandLoop closes ma band max_outside total start 0 = .exceeded ↔
      (countOutside closes ma band start total : Int) > max_outside) ∧
    ((countOutside closes ma band start total : Int) = max_outside →
      bandLoop closes ma band max_outside total start 0 =
        .ok (countOutside closes ma band start total)) ∧
    (∀ (rows : List Obs) (wd : Nat) (mud : Int) (mrp : ℚ),
      total = rows.length → start = total - wd →
      bandLoop closes ma band max_outside total start 0 = .exceeded →
      check_ma_signal rows closes ma wd band max_outside mud mrp = none) := by
  have hb := bandLoop_eq closes ma band max_outside total start hvalid
    (total - start) start 0 rfl le_rfl (by exact_mod_cast hmo)
  refine ⟨?_, ?_, ?_⟩
  · rw [hb]
    by_cases h : (countOutside closes ma band start total : Int) > max_outside
    · rw [if_pos (by push_cast; omega)]
      simp [h]
    · rw [if_neg (by push_cast; omega)]
      simp [h]
  · intro heq
    rw [hb, if_neg (by push_cast; omega)]
    rw [Nat.zero_add]
  · intro rows wd mud mrp htot hstart hexc
    subst htot
    subst hstart
    unfold check_ma_signal
    simp only [hexc]
    split
    · rfl
    · split
      · rfl
      · split
        · rfl
        · rfl

/-- A satisfied element bounds `findIdx?` from above. -/
theorem findIdx?_le_of_getElem? {α : Type} (p : α → Bool) :
    ∀ (l : List α) (j : Nat) (x : α), l[j]? = some x → p x = true →
      ∃ k, k ≤ j ∧ l.findIdx? p = some k := by
  intro l
  induction l with
  | nil =>
    intro j x hj hp
    rw [List.getElem?_nil] at hj
    cases hj
  | cons a l ih =>
    intro j x hj hp
    rw [List.findIdx?_cons]
    by_cases hpa : p a = true
    · exact ⟨0, Nat.zero_le j, by rw [if_pos hpa]⟩
    · rcases j with _ | j
      · rw [List.getElem?_cons_zero] at hj
        injection hj with hj
        subst hj
        exact absurd hp hpa
      · rw [List.getElem?_cons_succ] at hj
        obtain ⟨k, hk, hfind⟩ := ih j x hj hp
        refine ⟨k + 1, by omega, ?_⟩
        rw [if_neg hpa, List.findIdx?_succ, hfind]
        rfl

/-- A defined MA value bounds the first-defined-index from above. -/
theorem firstMaIdx_le (ma : List (Option ℚ)) (j : Nat) (m : ℚ)
    (h : ma.getD j none = some m) : firstMaIdx ma ≤ j := by
  rw [List.getD_eq_getElem?_getD] at h
  rcases hx : ma[j]? with _ | o
  · rw [hx] at h
    cases h
  · rw [hx] at h
    obtain ⟨k, hk, hfind⟩ := findIdx?_le_of_getElem? (fun v => v.isSome) ma j o
      hx (by rw [Option.getD_some] at h; rw [h]; rfl)
    unfold firstMaIdx
    rw [hfind]
    exact hk

/-- On a flat MA the up-days loop counts every step. -/
theorem upLoop_flat (ma : List (Option ℚ)) (m : ℚ) (total lo : Nat)
    (hflat : ∀ i, lo ≤ i → i < total → ma.getD i none = some m) :
    ∀ (fuel idx acc : Nat), total - idx = fuel → lo + 1 ≤ idx →
      upLoop ma total idx acc = some (acc + (total - idx)) := by
  intro fuel
  induction fuel with
  | zero =>
    intro idx acc hfuel hlo
    rw [upLoop, if_neg (by omega), hfuel]
    rfl
  | succ fuel ih =>
    intro idx acc hfuel hlo
    have hidx : idx < total := by omega
    rw [upLoop, if_pos hidx, hflat (idx - 1) (by omega) (by omega),
      hflat idx (by omega) hidx]
    simp only [Option.isNone_some, Bool.false_eq_true, or_self,
      Option.getD_some]
    rw [if_neg (fun h => h), if_pos le_rfl]
    rw [ih (idx + 1) (acc + 1) (by omega) (by omega)]
    congr 1
    omega

/-- With every window day inside the band, no day counts as outside. -/
theorem countOutside_zero (closes : List ℚ) (ma : List (Option ℚ))
    (band : ℚ) (lo hi : Nat)
    (h : ∀ i, lo ≤ i → i < hi →
      ¬ (|closes.getD i 0 - (ma.getD i none).getD 0| /
          (ma.getD i none).getD 0 > band)) :
    countOutside closes ma band lo hi = 0 := by
  unfold countOutside
  rw [List.length_eq_zero, List.filter_eq_nil_iff]
  intro a ha
  rw [List.mem_range'_1] at ha
  simpa using h a ha.1 (by omega)

/-- The band-trend check on a strictly flat positive MA with all closes
within band: every window day counts as non-decreasing, so the check
fires iff `min_up_days ≤ window_days − 1` (with a non-negative outside
tolerance and a non-positive rise threshold). -/
theorem check_flat_ma_iff (rows : List Obs) (closes : List ℚ)
    (ma : List (Option ℚ)) (window_days : Nat) (band m : ℚ)
    (max_outside min_up_days : Int) (min_rise_pct : ℚ)
    (hwd : 1 ≤ window_days) (hwdle : window_days ≤ rows.length)
    (hflat : ∀ i, rows.length - window_days ≤ i → i < rows.length →
      ma.getD i none = some m)
    (hm : 0 < m)
    (hband : ∀ i, rows.length - window_days ≤ i → i < rows.length →
      |closes.getD i 0 - m| / m ≤ band)
    (hmo : 0 ≤ max_outside) (hmrp : min_rise_pct ≤ 0) :
    ((check_ma_signal rows closes ma window_days band max_outside
        min_up_days min_rise_pct).isSome = true ↔
      min_up_days ≤ (window_days : Int) - 1) := by
  have hstartlt : rows.length - window_days < rows.length := by omega
  have hstartma : ma.getD (rows.length - window_days) none = some m :=
    hflat _ le_rfl hstartlt
  have hendma : ma.getD (rows.length - 1) none = some m :=
    hflat _ (by omega) (by omega)
  have hfirst : firstMaIdx ma ≤ rows.length - window_days :=
    firstMaIdx_le ma _ m hstartma
  have hvalid : ∀ i, rows.length - window_days ≤ i → i < rows.length →
      ∃ m', ma.getD i none = some m' ∧ 0 < m' :=
    fun i h1 h2 => ⟨m, hflat i h1 h2, hm⟩
  have hcount : countOutside closes ma band (rows.length - window_days)
      rows.length = 0 := by
    apply countOutside_zero
    intro i h1 h2
    rw [hflat i h1 h2, Option.getD_some]
    exact not_lt.mpr (hband i h1 h2)
  have hbandok : bandLoop closes ma band max_outside rows.length
      (rows.length - window_days) 0 = .ok 0 := by
    rw [bandLoop_eq closes ma band max_outside rows.length
      (rows.length - window_days) hvalid
      (rows.length - (rows.length - window_days)) (rows.length - window_days)
      0 rfl le_rfl (by exact_mod_cast hmo)]
    rw [hcount, if_neg (by push_cast; omega)]
  have hup : upLoop ma rows.length (rows.length - window_days + 1) 0 =
      some (window_days - 1) := by
    rw [upLoop_flat ma m rows.length (rows.length - window_days) hflat
      (rows.length - (rows.length - window_days + 1))
      (rows.length - window_days + 1) 0 rfl (by omega)]
    congr 1
    omega
  unfold check_ma_signal
  simp only [hstartma, hendma, Option.isNone_some, Bool.false_eq_true,
    false_or, Option.getD_some, hbandok, hup]
  rw [if_neg (by omega : ¬ rows.length < window_days)]
  rw [if_neg (by omega : ¬ rows.length - window_days < firstMaIdx ma)]
  rw [if_neg (not_le.mpr hm)]
  rw [if_neg not_false]
  have hrise : (m - m) / m = 0 := by
    rw [sub_self, zero_div]
  rw [hrise, if_neg (not_lt.mpr hmrp)]
  by_cases hmud : ((window_days - 1 : Nat) : Int) < min_up_days
  · rw [if_pos hmud]
    simp only [Option.isSome_none, Bool.false_eq_true, false_iff]
    omega
  · rw [if_neg hmud]
    simp only [Option.isSome_some, true_iff]
    omega

/-- Witness for C8: closes `[10, 13, 10]` against a constant MA of 10,
band 2%, `max_outside = 1` — the window has exactly one outside day. -/
theorem band_adherence_strict_witness :
    (bandLoop [10, 13, 10] [some 10, some 10, some 10] (2/100) 1 3 0 0 =
        .exceeded ↔
      (countOutside [10, 13, 10] [some 10, some 10, some 10] (2/100) 0 3 :
        Int) > 1) ∧
    ((countOutside [10, 13, 10] [some 10, some 10, some 10] (2/100) 0 3 :
        Int) = 1 →
      bandLoop [10, 13, 10] [some 10, some 10, some 10] (2/100) 1 3 0 0 =
        .ok (countOutside [10, 13, 10] [some 10, some 10, some 10]
          (2/100) 0 3)) ∧
    (∀ (rows : List Obs) (wd : Nat) (mud : Int) (mrp : ℚ),
      3 = rows.length → 0 = 3 - wd →
      bandLoop [10, 13, 10] [some 10, some 10, some 10] (2/100) 1 3 0 0 =
        .exceeded →
      check_ma_signal rows [10, 13, 10] [some 10, some 10, some 10] wd
        (2/100) 1 mud mrp = none) :=
  band_adherence_strict [10, 13, 10] [some 10, some 10, some 10] (2/100) 1 3 0
    (by
      intro i h0 h3
      interval_cases i <;> exact ⟨10, rfl, by norm_num⟩)
    (by norm_num)

/-- C7 (amended): on a strictly flat positive MA window with all closes
within band (non-negative outside tolerance, non-positive rise
threshold), the band-trend detector counts every flat day as
non-decreasing — `up_days = window_days − 1` — so it reports a signal
iff `min_up_days ≤ window_days − 1`; `min_up_days ≥ 1` alone does not
suppress the signal. -/
theorem flat_ma_band_signal (rows : List Obs) (closes : List ℚ)
    (ma : List (Option ℚ)) (window_days : Nat) (band m : ℚ)
    (max_outside min_up_days : Int) (min_rise_pct : ℚ)
    (hwd : 1 ≤ window_days) (hwdle : window_days ≤ rows.length)
    (hflat : ∀ i, rows.length - window_days ≤ i → i < rows.length →
      ma.getD i none = some m)
    (hm : 0 < m)
    (hband : ∀ i, rows.length - window_days ≤ i → i < rows.length →
      |closes.getD i 0 - m| / m ≤ band)
    (hmo : 0 ≤ max_outside) (hmrp : min_rise_pct ≤ 0) :
    ((check_ma_signal rows closes ma window_days band max_outside
        min_up_days min_rise_pct).isSome = true ↔
      min_up_days ≤ (window_days : Int) - 1) :=
  check_flat_ma_iff rows closes ma window_days band m max_outside
    min_up_days min_rise_pct hwd hwdle hflat hm hband hmo hmrp

/-- The flat close series of the C7 scenario. -/
def c7Closes : List ℚ := [10, 10, 10, 10, 10]

/-- The five observations of the C7 scenario. -/
def c7Rows : List Obs :=
  [⟨20240101, "20240101", 10⟩, ⟨20240102, "20240102", 10⟩,
   ⟨20240103, "20240103", 10⟩, ⟨20240104, "20240104", 10⟩,
   ⟨20240105, "20240105", 10⟩]

/-- The MA of the C7 scenario is strictly flat at 10 over the window. -/
theorem c7_ma_flat : ∀ i, (5 : Nat) - 3 ≤ i → i < 5 →
    (compute_ma c7Closes 2).getD i none = some 10 := by
  intro i h2 h5
  rw [List.getD_eq_getElem?_getD,
    compute_ma_getElem? c7Closes 2 (by norm_num)
      (by norm_num [c7Closes]) i]
  rw [if_neg (by omega), if_pos (by norm_num [c7Closes]; omega)]
  rw [Option.getD_some, Option.some.injEq]
  interval_cases i <;> norm_num [directMean, sumFrom, c7Closes]

/-- Counterexample to C7 as stated: a strictly flat MA (constant 10
over the window) with all closes within the 2% band and
`min_up_days = 1 ≥ 1` — the claim demands no signal, yet the detector
reports one (`up_days = window_days − 1 = 2 ≥ 1`). -/
theorem flat_ma_fires_counterexample :
    (∀ i, (5 : Nat) - 3 ≤ i → i < 5 →
      (compute_ma c7Closes 2).getD i none = some 10) ∧
    (1 : Int) ≥ 1 ∧
    (check_ma_signal c7Rows c7Closes (compute_ma c7Closes 2) 3 (2/100)
      2 1 0).isSome = true := by
  refine ⟨c7_ma_flat, le_refl 1, ?_⟩
  rw [check_flat_ma_iff c7Rows c7Closes (compute_ma c7Closes 2) 3 (2/100)
    10 2 1 0 (by norm_num) (by norm_num [c7Rows])
    (by
      have h5 : c7Rows.length = 5 := by norm_num [c7Rows]
      rw [h5]
      exact c7_ma_flat)
    (by norm_num)
    (by
      have h5 : c7Rows.length = 5 := by norm_num [c7Rows]
      rw [h5]
      intro i h1 h2
      interval_cases i <;> norm_num [c7Closes])
    (by norm_num) (le_refl 0)]
  norm_num

/-- Witness for the amended C7: the same flat scenario with
`min_up_days = 3 > window_days − 1 = 2` reports no signal, and with
`min_up_days = 1` it reports one — matching the iff. -/
theorem flat_ma_band_signal_witness :
    ((check_ma_signal c7Rows c7Closes (compute_ma c7Closes 2) 3 (2/100)
        2 3 0).isSome = true ↔ (3 : Int) ≤ (3 : Int) - 1) := by
  have h5 : c7Rows.length = 5 := by norm_num [c7Rows]
  have h := flat_ma_band_signal c7Rows c7Closes (compute_ma c7Closes 2) 3
    (2/100) 10 2 3 0 (by norm_num) (by norm_num [c7Rows])
    (by rw [h5]; exact c7_ma_flat) (by norm_num)
    (by
      rw [h5]
      intro i h1 h2
      interval_cases i <;> norm_num [c7Closes])
    (by norm_num) (le_refl 0)
  simpa using h

/-! ### Crossover detector first-event semantics (C6) -/

/-- The skip condition of the `find_signal` scan: day 0, or the MA of
the day or of the previous day is undefined. -/
def skipDay (ma : List (Option ℚ)) (i : Nat) : Prop :=
  i = 0 ∨ ma.getD i none = none ∨ ma.getD (i - 1) none = none

instance skipDayDecidable (ma : List (Option ℚ)) (i : Nat) :
    Decidable (skipDay ma i) := by
  unfold skipDay
  infer_instance

/-- Modelled from the spec: a (non-skipped) down-cross day —
`prev_close ≥ prev_MA` and `close < MA`. -/
def downCross (closes : List ℚ) (ma : List (Option ℚ)) (i : Nat) : Bool :=
  !(decide (skipDay ma i)) &&
    decide (closes.getD (i - 1) 0 ≥ (ma.getD (i - 1) none).getD 0 ∧
      closes.getD i 0 < (ma.getD i none).getD 0)

/-- Modelled from the spec: a (non-skipped) up-cross day —
`prev_close < prev_MA` and `close ≥ MA`. -/
def upCross (closes : List ℚ) (ma : List (Option ℚ)) (i : Nat) : Bool :=
  !(decide (skipDay ma i)) &&
    decide (closes.getD (i - 1) 0 < (ma.getD (i - 1) none).getD 0 ∧
      closes.getD i 0 ≥ (ma.getD i none).getD 0)

/-- Modelled from the spec: the crossover detector as first-event
search — the first down-cross day in the scan window, then the first
up-cross day strictly after it; no signal when either is absent
(spec §4.4). -/
def crossSpec (rows : List Obs) (window_days ma_window : Nat) :
    Option CrossSignal :=
  let closes := rows.map (fun r => r.close)
  let ma_values := compute_ma closes ma_window
  let count := rows.length
  let window_start := max (ma_window - 1) (count - window_days)
  match (List.range' window_start (count - window_start)).find?
      (downCross closes ma_values) with
  | none => none
  | some down_idx =>
    match (List.range' (down_idx + 1) (count - (down_idx + 1))).find?
        (upCross closes ma_values) with
    | none => none
    | some up_idx =>
      some { down_date := (rows.getD down_idx default).date_raw
             up_date := (rows.getD up_idx default).date_raw
             last_date := (rows.getD (count - 1) default).date_raw
             last_close := closes.getD (count - 1) 0
             last_ma := (ma_values.getD (count - 1) none).getD 0 }

/-- Once a down-cross is recorded, the scan loop returns it together
with the first up-cross day at or after the current index. -/
theorem findSignalLoop_up (closes : List ℚ) (ma : List (Option ℚ))
    (total : Nat) :
    ∀ (fuel idx d : Nat), total - idx = fuel →
      findSignalLoop closes ma total idx (some d) =
        (some d, (List.range' idx (total - idx)).find?
          (upCross closes ma)) := by
  intro fuel
  induction fuel with
  | zero =>
    intro idx d hfuel
    rw [findSignalLoop, if_neg (by omega), hfuel]
    rfl
  | succ fuel ih =>
    intro idx d hfuel
    have hidx : idx < total := by omega
    rw [findSignalLoop, if_pos hidx]
    rw [show total - idx = (total - (idx + 1)) + 1 from by omega,
      List.range'_succ, List.find?_cons]
    by_cases hskip : idx = 0 ∨ ma.getD idx none = none ∨
        ma.getD (idx - 1) none = none
    · rw [if_pos hskip]
      have hcross : upCross closes ma idx = false := by
        unfold upCross
        rw [decide_eq_true (show skipDay ma idx from hskip)]
        rfl
      rw [hcross]
      exact ih (idx + 1) d (by omega)
    · rw [if_neg hskip]
      have hval : (!(decide (skipDay ma idx))) = true := by
        rw [decide_eq_false (show ¬ skipDay ma idx from hskip)]
        rfl
      show (if closes.getD (idx - 1) 0 < (ma.getD (idx - 1) none).getD 0 ∧
            closes.getD idx 0 ≥ (ma.getD idx none).getD 0
          then ((some d : Option Nat), (some idx : Option Nat))
          else findSignalLoop closes ma total (idx + 1) (some d)) = _
      by_cases hcond : closes.getD (idx - 1) 0 < (ma.getD (idx - 1) none).getD 0 ∧
          closes.getD idx 0 ≥ (ma.getD idx none).getD 0
      · rw [if_pos hcond]
        have hcross : upCross closes ma idx = true := by
          unfold upCross
          rw [hval, decide_eq_true hcond]
          rfl
        rw [hcross]
      · rw [if_neg hcond]
        have hcross : upCross closes ma idx = false := by
          unfold upCross
          rw [hval, decide_eq_false hcond]
          rfl
        rw [hcross]
        exact ih (idx + 1) d (by omega)

/-- The scan loop in the seeking-down state: it returns the first
down-cross day from the current index (if any) paired with the first
up-cross day strictly after it (if any). -/
theorem findSignalLoop_down (closes : List ℚ) (ma : List (Option ℚ))
    (total : Nat) :
    ∀ (fuel idx : Nat), total - idx = fuel →
      findSignalLoop closes ma total idx none =
        (match (List.range' idx (total - idx)).find?
            (downCross closes ma) with
         | none => (none, none)
         | some down_idx => (some down_idx,
             (List.range' (down_idx + 1) (total - (down_idx + 1))).find?
               (upCross closes ma))) := by
  intro fuel
  induction fuel with
  | zero =>
    intro idx hfuel
    rw [findSignalLoop, if_neg (by omega), hfuel]
    rfl
  | succ fuel ih =>
    intro idx hfuel
    have hidx : idx < total := by omega
    rw [findSignalLoop, if_pos hidx]
    rw [show total - idx = (total - (idx + 1)) + 1 from by omega,
      List.range'_succ, List.find?_cons]
    by_cases hskip : idx = 0 ∨ ma.getD idx none = none ∨
        ma.getD (idx - 1) none = none
    · rw [if_pos hskip]
      have hcross : downCross closes ma idx = false := by
        unfold downCross
        rw [decide_eq_true (show skipDay ma idx from hskip)]
        rfl
      rw [hcross]
      exact ih (idx + 1) (by omega)
    · rw [if_neg hskip]
      have hval : (!(decide (skipDay ma idx))) = true := by
        rw [decide_eq_false (show ¬ skipDay ma idx from hskip)]
        rfl
      show (if closes.getD (idx - 1) 0 ≥ (ma.getD (idx - 1) none).getD 0 ∧
            closes.getD idx 0 < (ma.getD idx none).getD 0
          then findSignalLoop closes ma total (idx + 1) (some idx)
          else findSignalLoop closes ma total (idx + 1) none) = _
      by_cases hcond : closes.getD (idx - 1) 0 ≥ (ma.getD (idx - 1) none).getD 0 ∧
          closes.getD idx 0 < (ma.getD idx none).getD 0
      · rw [if_pos hcond]
        have hcross : downCross closes ma idx = true := by
          unfold downCross
          rw [hval, decide_eq_true hcond]
          rfl
        rw [hcross]
        exact findSignalLoop_up closes ma total (total - (idx + 1)) (idx + 1)
          idx rfl
      · rw [if_neg hcond]
        have hcross : downCross closes ma idx = false := by
          unfold downCross
          rw [hval, decide_eq_false hcond]
          rfl
        rw [hcross]
        exact ih (idx + 1) (by omega)

/-- Fuel-free form of `findSignalLoop_down`. -/
theorem findSignalLoop_down_closed (closes : List ℚ)
    (ma : List (Option ℚ)) (total idx : Nat) :
    findSignalLoop closes ma total idx none =
      (match (List.range' idx (total - idx)).find?
          (downCross closes ma) with
       | none => (none, none)
       | some down_idx => (some down_idx,
           (List.range' (down_idx + 1) (total - (down_idx + 1))).find?
             (upCross closes ma))) :=
  findSignalLoop_down closes ma total (total - idx) idx rfl

/-- C6: `find_signal` equals the first-event search of the spec — over
the scan window starting at `max(ma_window − 1, n − window_days)` it
reports a signal iff a first down-cross day exists and a first up-cross
day exists strictly after it, records exactly those two days (never a
later up-cross), returns no signal when either is absent, and skips
days with undefined MA without resetting state. -/
theorem find_signal_eq_crossSpec (rows : List Obs)
    (window_days ma_window : Nat) :
    find_signal rows window_days ma_window =
      crossSpec rows window_days ma_window := by
  unfold find_signal crossSpec
  by_cases hlen : rows.length < ma_window
  · rw [if_pos hlen]
    have hnone : ∀ i,
        (compute_ma (rows.map (fun r => r.close)) ma_window).getD i none =
          none := by
      intro i
      unfold compute_ma
      rw [if_pos (by simpa using hlen)]
      rw [List.getD_eq_getElem?_getD, List.getElem?_replicate]
      split <;> rfl
    have hfind : ∀ lo n, (List.range' lo n).find?
        (downCross (rows.map (fun r => r.close))
          (compute_ma (rows.map (fun r => r.close)) ma_window)) = none := by
      intro lo n
      rw [List.find?_eq_none]
      intro x hx
      unfold downCross
      rw [decide_eq_true (show skipDay _ x from Or.inr (Or.inl (hnone x)))]
      simp
    simp only [hfind]
  · rw [if_neg hlen]
    simp only [findSignalLoop_down_closed]
    rcases hfd : (List.range'
        (max (ma_window - 1) (rows.length - window_days))
        (rows.length - max (ma_window - 1) (rows.length - window_days))).find?
          (downCross (rows.map (fun r => r.close))
            (compute_ma (rows.map (fun r => r.close)) ma_window))
      with _ | d
    · simp only [hfd]
    · rcases hfu : (List.range' (d + 1) (rows.length - (d + 1))).find?
          (upCross (rows.map (fun r => r.close))
            (compute_ma (rows.map (fun r => r.close)) ma_window))
        with _ | u
      · simp only [hfd, hfu]
      · simp only [hfd, hfu]

end Kcb
